import Mathlib

/-!
Shallow embedding of the BigWorld Blender exporter's binary geometry core
(`utils/vertex_compression.py`, `formats/vertex_formats.py`,
`formats/primitives_format.py`, `core/collision_processor.py`),
together with theorems settling the specification claims about it.

Numeric conventions: Python floats are modelled as exact rationals (`ℚ`)
where the code is pure arithmetic, and as real numbers (`ℝ`) where the code
uses transcendental functions (`atan2`, `asin`, `cos`, `sin`).
Python's built-in `round` (banker's rounding, ties to even) is modelled by
`pythonRound`.  Python's `n & 0xFF` on arbitrary (possibly negative)
integers equals `n mod 256` and is modelled by `Int.emod _ 256`.
Python's stable sorts `sorted(xs)` / `sorted(xs, reverse=True)` are
modelled by the stable insertion sorts `sortAsc` / `sortDesc`.
File output is modelled as a trace of the writer-helper calls
(`write_bytes`/`write_u8`/`write_u16`/`write_u32`/`write_f32`, helpers
whose definitions live outside the embedded core); the state of the
destination path after an export call is `none` when the file was never
opened and `some trace` once the file has been created/truncated.
-/

namespace BigWorld

/-- `utils/vertex_compression.py`: `clamp(x, lo, hi) = max(lo, min(hi, x))`. -/
def pyclamp {α : Type} [LinearOrder α] (x lo hi : α) : α :=
  max lo (min hi x)

/-- Python's built-in `round`: round half to even (banker's rounding).
For a tie (fractional part exactly 1/2) with even floor it rounds down;
otherwise it agrees with round-half-up (Mathlib's `round`). -/
def pythonRound {α : Type} [LinearOrderedField α] [FloorRing α]
    [DecidableEq α] (x : α) : ℤ :=
  if x - ⌊x⌋ = 1 / 2 ∧ Even ⌊x⌋ then ⌊x⌋ else round x

/-- Stable descending insertion used to model Python's
`sorted(xs, reverse=True)` (a stable descending sort). -/
def insertDesc (x : ℚ) : List ℚ → List ℚ
  | [] => [x]
  | y :: ys => if y ≤ x then x :: y :: ys else y :: insertDesc x ys

/-- Python `sorted(xs, reverse=True)`: stable descending sort. -/
def sortDesc : List ℚ → List ℚ
  | [] => []
  | x :: xs => insertDesc x (sortDesc xs)

/-- Stable ascending insertion used to model Python's `sorted(xs)`. -/
def insertAsc (x : ℚ) : List ℚ → List ℚ
  | [] => [x]
  | y :: ys => if x ≤ y then x :: y :: ys else y :: insertAsc x ys

/-- Python `sorted(xs)`: stable ascending sort. -/
def sortAsc : List ℚ → List ℚ
  | [] => []
  | x :: xs => insertAsc x (sortAsc xs)

/-- Python `max(xs)` on a list of integers (`0` as junk value on `[]`,
which the embedded code only ever reaches after a non-emptiness check). -/
def listMax (l : List ℤ) : ℤ :=
  match l with
  | [] => 0
  | x :: xs => xs.foldl max x

/-- `quantize_weights_3` (`utils/vertex_compression.py` lines 48-73):
sort weights descending, cut/pad to exactly 3, normalize to sum 1
(fallback `[1,0,0]` when the sum is ≤ 1e-20), quantize the first two to
`0..255`, derive the third as `255 - q0 - q1`, clamp all three. -/
def quantize_weights_3 (weights : List ℚ) : ℤ × ℤ × ℤ :=
  let w0 := (sortDesc weights).take 3
  let w1 := w0 ++ List.replicate (3 - w0.length) (0 : ℚ)
  let s := w1.sum
  let w := if s ≤ 1 / 10 ^ 20 then [(1 : ℚ), 0, 0]
           else w1.map (fun x => pyclamp (x / s) 0 1)
  let q0 := pythonRound (w.getD 0 0 * 255)
  let q1 := pythonRound (w.getD 1 0 * 255)
  let q2 := 255 - q0 - q1
  (max 0 (min 255 q0), max 0 (min 255 q1), max 0 (min 255 q2))

/-- `quantize_indices_3` (`utils/vertex_compression.py` lines 75-83):
take up to 3 bone indices, pad missing slots with 0, truncate each value
to 8 bits (Python `i & 0xFF`, i.e. `i mod 256`). -/
def quantize_indices_3 (indices : List ℤ) : ℤ × ℤ × ℤ :=
  let idx0 := indices.take 3
  let idx := idx0 ++ List.replicate (3 - idx0.length) (0 : ℤ)
  (idx.getD 0 0 % 256, idx.getD 1 0 % 256, idx.getD 2 0 % 256)

/-- `pack_uv` (`utils/vertex_compression.py` lines 85-90): pass-through. -/
def pack_uv (u v : ℚ) : ℚ × ℚ := (u, v)

/-- Python `math.atan2 y x`, modelled as the argument of the complex
number `x + y·i`, with range `(-π, π]`. -/
noncomputable def atan2 (y x : ℝ) : ℝ := Complex.arg ⟨x, y⟩

/-- `normalize3` (`utils/vertex_compression.py` lines 13-17): normalize a
vector, with fallback `(0,0,1)` when the length is ≤ 1e-20. -/
noncomputable def normalize3 (x y z : ℝ) : ℝ × ℝ × ℝ :=
  let n := Real.sqrt (x * x + y * y + z * z)
  if n ≤ 1 / 10 ^ 20 then (0, 0, 1) else (x / n, y / n, z / n)

/-- `compress_dir_to_u16x2` (`utils/vertex_compression.py` lines 21-33):
normalize, take azimuth `phi = atan2(y, x)` and elevation
`theta = asin(clamp(z, -1, 1))`, map both to `[0,1]`, quantize each by
`round(· * 65535)` clamped to `[0, 65535]`. -/
noncomputable def compress_dir_to_u16x2 (nx ny nz : ℝ) : ℤ × ℤ :=
  let p := normalize3 nx ny nz
  let phi := atan2 p.2.1 p.1
  let theta := Real.arcsin (pyclamp p.2.2 (-1) 1)
  let phi01 := (phi + Real.pi) / (2 * Real.pi)
  let theta01 := (theta + Real.pi / 2) / Real.pi
  let u := max 0 (min 65535 (pythonRound (phi01 * 65535)))
  let v := max 0 (min 65535 (pythonRound (theta01 * 65535)))
  (u, v)

/-- `decompress_u16x2_to_dir` (`utils/vertex_compression.py` lines 35-46):
reconstruct azimuth/elevation from the two 16-bit channels, convert
spherical to Cartesian, renormalize. -/
noncomputable def decompress_u16x2_to_dir (u v : ℤ) : ℝ × ℝ × ℝ :=
  let phi01 := pyclamp ((u : ℝ) / 65535) 0 1
  let theta01 := pyclamp ((v : ℝ) / 65535) 0 1
  let phi := phi01 * (2 * Real.pi) - Real.pi
  let theta := theta01 * Real.pi - Real.pi / 2
  normalize3 (Real.cos theta * Real.cos phi) (Real.cos theta * Real.sin phi)
    (Real.sin theta)

/-- `VertexAttribute` (`formats/vertex_formats.py` lines 22-29). -/
structure VertexAttribute where
  name : String
  dtype : String
  byte_size : ℕ
deriving DecidableEq

/-- `VertexFormat` (`formats/vertex_formats.py` lines 32-41). -/
structure VertexFormat where
  identifier : String
  attributes : List VertexAttribute
  vertex_size : ℕ
  has_skinning : Bool
deriving DecidableEq

def POSITION_F32x3 : VertexAttribute := ⟨"position", "f32x3", 12⟩
def NORMAL_U16x2 : VertexAttribute := ⟨"normal", "u16x2", 4⟩
def UV_F32x2 : VertexAttribute := ⟨"uv0", "f32x2", 8⟩
def TANGENT_U16x2 : VertexAttribute := ⟨"tangent", "u16x2", 4⟩
def BINORMAL_U16x2 : VertexAttribute := ⟨"binormal", "u16x2", 4⟩
def BONE_IDX_U8x3 : VertexAttribute := ⟨"bone_idx", "u8x3", 3⟩
def BONE_W_U8x2 : VertexAttribute := ⟨"bone_w", "u8x2", 2⟩

/-- Registered format `"xyznuvtb"` (`formats/vertex_formats.py` lines 65-82). -/
def fmt_xyznuvtb : VertexFormat :=
  { identifier := "xyznuvtb"
    attributes := [POSITION_F32x3, NORMAL_U16x2, UV_F32x2, TANGENT_U16x2,
                   BINORMAL_U16x2]
    vertex_size := POSITION_F32x3.byte_size + NORMAL_U16x2.byte_size +
      UV_F32x2.byte_size + TANGENT_U16x2.byte_size + BINORMAL_U16x2.byte_size
    has_skinning := false }

/-- Registered format `"xyznuviiiwwtb"` (`formats/vertex_formats.py`
lines 85-106). -/
def fmt_xyznuviiiwwtb : VertexFormat :=
  { identifier := "xyznuviiiwwtb"
    attributes := [POSITION_F32x3, NORMAL_U16x2, UV_F32x2, BONE_IDX_U8x3,
                   BONE_W_U8x2, TANGENT_U16x2, BINORMAL_U16x2]
    vertex_size := POSITION_F32x3.byte_size + NORMAL_U16x2.byte_size +
      UV_F32x2.byte_size + BONE_IDX_U8x3.byte_size + BONE_W_U8x2.byte_size +
      TANGENT_U16x2.byte_size + BINORMAL_U16x2.byte_size
    has_skinning := true }

/-- `get_vertex_format` via `REGISTERED_FORMATS.get`
(`formats/vertex_formats.py` lines 63-117); `none` models the
`ValueError` raised for an unregistered name. -/
def getVertexFormat (name : String) : Option VertexFormat :=
  if name = "xyznuvtb" then some fmt_xyznuvtb
  else if name = "xyznuviiiwwtb" then some fmt_xyznuviiiwwtb
  else none

/-- A raw per-vertex attribute value (the payload of one key of a Python
vertex dictionary): a float triple, a float pair, a list of integers or a
list of floats. -/
inductive VAttrValue where
  | v3 (x y z : ℚ)
  | v2 (u v : ℚ)
  | ints (l : List ℤ)
  | floats (l : List ℚ)
deriving DecidableEq

/-- A vertex record: a Python dictionary keyed by attribute name,
modelled as an association list. -/
abbrev Vertex := List (String × VAttrValue)

/-- Python `k in vtx`. -/
def hasKey (v : Vertex) (k : String) : Bool := (v.lookup k).isSome

/-- Python `vtx[k]` destructured as a float triple (junk `(0,0,0)` on a
type mismatch the embedded claims never exercise). -/
def getV3 (v : Vertex) (k : String) : ℚ × ℚ × ℚ :=
  match v.lookup k with
  | some (.v3 x y z) => (x, y, z)
  | _ => (0, 0, 0)

/-- Python `vtx.get(k, d)` destructured as a float triple. -/
def getV3D (v : Vertex) (k : String) (d : ℚ × ℚ × ℚ) : ℚ × ℚ × ℚ :=
  match v.lookup k with
  | some (.v3 x y z) => (x, y, z)
  | _ => d

/-- Python `vtx[k]` destructured as a float pair. -/
def getV2 (v : Vertex) (k : String) : ℚ × ℚ :=
  match v.lookup k with
  | some (.v2 a b) => (a, b)
  | _ => (0, 0)

/-- Python `vtx.get(k, d)` destructured as a float pair. -/
def getV2D (v : Vertex) (k : String) (d : ℚ × ℚ) : ℚ × ℚ :=
  match v.lookup k with
  | some (.v2 a b) => (a, b)
  | _ => d

/-- Python truthiness chaining `o or fallback` for an optional list of
integers: a missing key or an empty list falls through. -/
def orInts (o : Option VAttrValue) (fallback : List ℤ) : List ℤ :=
  match o with
  | some (.ints l) => if l = [] then fallback else l
  | _ => fallback

/-- Python truthiness chaining for an optional list of floats. -/
def orFloats (o : Option VAttrValue) (fallback : List ℚ) : List ℚ :=
  match o with
  | some (.floats l) => if l = [] then fallback else l
  | _ => fallback

/-- `vtx.get("bone_idx") or vtx.get("bone_indices") or []`
(`formats/primitives_format.py` line 220). -/
def boneIdxOf (v : Vertex) : List ℤ :=
  orInts (v.lookup "bone_idx") (orInts (v.lookup "bone_indices") [])

/-- `vtx.get("bone_w") or vtx.get("bone_weights") or []`
(`formats/primitives_format.py` line 227). -/
def boneWOf (v : Vertex) : List ℚ :=
  orFloats (v.lookup "bone_w") (orFloats (v.lookup "bone_weights") [])

/-- `validate_vertex_dict` (`formats/vertex_formats.py` lines 134-146):
the list of required attribute keys missing from a vertex record, where
the generic key `"uv"` is accepted as an alias for `"uv0"`. -/
def validate_vertex_dict (vtx : Vertex) (fmt : VertexFormat) : List String :=
  fmt.attributes.foldr
    (fun a missing =>
      if ¬ hasKey vtx a.name then
        if a.name = "uv0" ∧ hasKey vtx "uv" then missing
        else a.name :: missing
      else missing) []

/-- `validate_vertices` (`formats/vertex_formats.py` lines 149-161):
fail-fast validation of a vertex list, returning `(ok, message)`. -/
def validate_vertices (vertices : List Vertex) (fmt : VertexFormat) :
    Bool × String :=
  if vertices = [] then (false, "No vertices provided")
  else
    let rec loop : ℕ → List Vertex → Bool × String
      | _, [] => (true, "OK")
      | i, v :: vs =>
        if validate_vertex_dict v fmt = [] then loop (i + 1) vs
        else (false, "Vertex " ++ toString i ++ " missing attributes for format "
          ++ fmt.identifier)
    loop 0 vertices

/-- The structured validation failures (`ValidationError` raise sites) of
the `.primitives` writer, tagged by raise site. -/
inductive VErr where
  | unknownFormat
  | noVertices
  | missingAttributes (vertexIndex : ℕ) (missing : List String)
  | noIndices
  | negativeIndex
  | indexExceedsVertexCount (index : ℤ)
  | noGroups
  | invalidGroupStats (group : ℕ)
  | groupIndexOverflow (group : ℕ)
  | groupVertexOverflow (group : ℕ)
  | nonAsciiIdentifier (name : String)
  | identifierTooLong (name : String)
  | indexRangeExceeded16
  | unsupportedAttribute (name : String)
deriving DecidableEq

/-- The `for i, vtx in enumerate(vertices)` attribute-presence loop of
`_validate_inputs` (`formats/primitives_format.py` lines 100-104): first
vertex index with missing required keys, together with those keys. -/
def firstMissing (required : List String) : List Vertex → Option (ℕ × List String)
  | [] => none
  | v :: vs =>
    let missing := required.filter (fun k => ¬ hasKey v k)
    if missing = [] then (firstMissing required vs).map (fun p => (p.1 + 1, p.2))
    else some (0, missing)

/-- The primitive-group loop of `_validate_inputs`
(`formats/primitives_format.py` lines 118-128), fail-fast per group:
stats sanity (`startIdx < 0 or numPrims <= 0 or startVtx < 0 or
numVtx <= 0`), then the index-range check
(`startIdx + numPrims*3 - 1 >= len(indices)`), then the vertex-range
check (`startVtx + numVtx - 1 >= len(vertices)`). -/
def checkGroups (numIndices numVertices : ℤ) :
    ℕ → List (ℤ × ℤ × ℤ × ℤ) → Except VErr Unit
  | _, [] => .ok ()
  | g, (startIdx, numPrims, startVtx, numVtx) :: rest =>
    if startIdx < 0 ∨ numPrims ≤ 0 ∨ startVtx < 0 ∨ numVtx ≤ 0 then
      .error (.invalidGroupStats g)
    else if startIdx + numPrims * 3 - 1 ≥ numIndices then
      .error (.groupIndexOverflow g)
    else if startVtx + numVtx - 1 ≥ numVertices then
      .error (.groupVertexOverflow g)
    else checkGroups numIndices numVertices (g + 1) rest

/-- `_validate_inputs` (`formats/primitives_format.py` lines 89-128). -/
def validateInputs (vertices : List Vertex) (indices : List ℤ)
    (primitive_groups : List (ℤ × ℤ × ℤ × ℤ)) (fmt : VertexFormat) :
    Except VErr Unit :=
  if vertices.length = 0 then .error .noVertices
  else
    match firstMissing (fmt.attributes.map (fun a => a.name)) vertices with
    | some (i, missing) => .error (.missingAttributes i missing)
    | none =>
      if indices.length = 0 then .error .noIndices
      else if indices.any (fun ix => ix < 0) then .error .negativeIndex
      else if listMax indices ≥ (vertices.length : ℤ) then
        .error (.indexExceedsVertexCount (listMax indices))
      else if primitive_groups.length = 0 then .error .noGroups
      else checkGroups (indices.length : ℤ) (vertices.length : ℤ) 0
        primitive_groups

/-- One call to a writer helper: the unit of the file-output trace. -/
inductive WEvent where
  | bytes (bs : List ℕ)
  | u8 (v : ℤ)
  | u16 (v : ℤ)
  | u32 (v : ℤ)
  | f32 (v : ℚ)

/-- `_pad_64bytes_ascii` (`formats/primitives_format.py` lines 135-139):
strict ASCII encoding, error beyond 64 bytes, zero-pad to 64 bytes. -/
def pad64 (name : String) : Except VErr (List ℕ) :=
  let b := name.toList.map Char.toNat
  if b.any (fun c => 128 ≤ c) then .error (.nonAsciiIdentifier name)
  else if 64 < b.length then .error (.identifierTooLong name)
  else .ok (b ++ List.replicate (64 - b.length) 0)

/-- One attribute of `_write_vertex` (`formats/primitives_format.py`
lines 184-233): the writer calls made for the named attribute of one
vertex record. -/
noncomputable def writeAttr (vtx : Vertex) (attrName : String) :
    Except VErr (List WEvent) :=
  if attrName = "position" then
    let p := getV3 vtx "position"
    .ok [.f32 p.1, .f32 p.2.1, .f32 p.2.2]
  else if attrName = "normal" then
    let n := getV3 vtx "normal"
    let c := compress_dir_to_u16x2 (n.1 : ℝ) (n.2.1 : ℝ) (n.2.2 : ℝ)
    .ok [.u16 c.1, .u16 c.2]
  else if attrName = "uv0" then
    let q := if hasKey vtx "uv0" then getV2 vtx "uv0"
             else getV2D vtx "uv" (0, 0)
    let uv := pack_uv q.1 q.2
    .ok [.f32 uv.1, .f32 uv.2]
  else if attrName = "tangent" then
    let t := getV3D vtx "tangent" (1, 0, 0)
    let c := compress_dir_to_u16x2 (t.1 : ℝ) (t.2.1 : ℝ) (t.2.2 : ℝ)
    .ok [.u16 c.1, .u16 c.2]
  else if attrName = "binormal" then
    let b := getV3D vtx "binormal" (0, 1, 0)
    let c := compress_dir_to_u16x2 (b.1 : ℝ) (b.2.1 : ℝ) (b.2.2 : ℝ)
    .ok [.u16 c.1, .u16 c.2]
  else if attrName = "bone_idx" then
    let q := quantize_indices_3 (boneIdxOf vtx)
    .ok [.u8 q.1, .u8 q.2.1, .u8 q.2.2]
  else if attrName = "bone_w" then
    let q := quantize_weights_3 (boneWOf vtx)
    .ok [.u8 q.1, .u8 q.2.1]
  else .error (.unsupportedAttribute attrName)

/-- `_write_vertex`: serialize one vertex in format attribute order,
returning the trace written so far and the error, if any, that
interrupted it. -/
noncomputable def writeVertexEvents (vtx : Vertex) :
    List VertexAttribute → List WEvent × Option VErr
  | [] => ([], none)
  | a :: rest =>
    match writeAttr vtx a.name with
    | .error e => ([], some e)
    | .ok evs =>
      let r := writeVertexEvents vtx rest
      (evs ++ r.1, r.2)

/-- The per-vertex loop of `_write_vertex_section`
(`formats/primitives_format.py` lines 146-147). -/
noncomputable def writeVerticesLoop (fmt : VertexFormat) :
    List Vertex → List WEvent × Option VErr
  | [] => ([], none)
  | v :: vs =>
    let r := writeVertexEvents v fmt.attributes
    match r.2 with
    | some e => (r.1, some e)
    | none =>
      let rs := writeVerticesLoop fmt vs
      (r.1 ++ rs.1, rs.2)

/-- `_write_vertex_section` (`formats/primitives_format.py`
lines 141-147): 64-byte identifier, `u32` vertex count, per-vertex
payload. -/
noncomputable def writeVertexSection (vertices : List Vertex)
    (fmt : VertexFormat) : List WEvent × Option VErr :=
  match pad64 fmt.identifier with
  | .error e => ([], some e)
  | .ok bs =>
    let r := writeVerticesLoop fmt vertices
    (WEvent.bytes bs :: WEvent.u32 (vertices.length : ℤ) :: r.1, r.2)

/-- The four `u32` writes per primitive group
(`formats/primitives_format.py` lines 173-177). -/
def groupEvents (groups : List (ℤ × ℤ × ℤ × ℤ)) : List WEvent :=
  (groups.map (fun g => [WEvent.u32 g.1, WEvent.u32 g.2.1, WEvent.u32 g.2.2.1,
    WEvent.u32 g.2.2.2])).flatten

/-- `_write_index_section` (`formats/primitives_format.py` lines 149-177):
64-byte index-format identifier (`"list32"` / `"list"`), `u32` index
count, `u32` group count, raw indices, group table.  With 16-bit indices
requested, `max(indices) > 0xFFFF` raises after the header and counts
have already been written. -/
def writeIndexSection (indices : List ℤ)
    (primitive_groups : List (ℤ × ℤ × ℤ × ℤ)) (use_32bit_index : Bool) :
    List WEvent × Option VErr :=
  let index_fmt_name := if use_32bit_index then "list32" else "list"
  match pad64 index_fmt_name with
  | .error e => ([], some e)
  | .ok bs =>
    let header := [WEvent.bytes bs, WEvent.u32 (indices.length : ℤ),
      WEvent.u32 (primitive_groups.length : ℤ)]
    if use_32bit_index then
      (header ++ indices.map WEvent.u32 ++ groupEvents primitive_groups, none)
    else if listMax indices > 0xFFFF then (header, some .indexRangeExceeded16)
    else (header ++ indices.map WEvent.u16 ++ groupEvents primitive_groups, none)

/-- The observable outcome of one `export_primitives_file` call:
`fileState = none` when the destination path was never opened (left
untouched), `some trace` once the file was created/truncated with that
trace written into it; `error` is the `ValidationError` raised, if any. -/
structure ExportOutcome where
  fileState : Option (List WEvent)
  error : Option VErr

/-- The body of `export_primitives_file` after the vertex format has been
resolved: run `_validate_inputs`; only on success open the destination
(`create_directory` + `open(filepath, "wb")`, which creates/truncates the
file) and write the vertex section and then the index section. -/
noncomputable def exportResolved (vertices : List Vertex)
    (indices : List ℤ) (primitive_groups : List (ℤ × ℤ × ℤ × ℤ))
    (use_32bit_index : Bool) (fmt : VertexFormat) : ExportOutcome :=
  match validateInputs vertices indices primitive_groups fmt with
  | .error e => ⟨none, some e⟩
  | .ok _ =>
    match (writeVertexSection vertices fmt).2 with
    | some e => ⟨some (writeVertexSection vertices fmt).1, some e⟩
    | none =>
      ⟨some ((writeVertexSection vertices fmt).1 ++
         (writeIndexSection indices primitive_groups use_32bit_index).1),
       (writeIndexSection indices primitive_groups use_32bit_index).2⟩

/-- `export_primitives_file` (`formats/primitives_format.py` lines 52-82):
resolve the vertex format (`get_vertex_format` raises for an unknown
name, before anything is validated or written), then `exportResolved`. -/
noncomputable def export_primitives_file (vertices : List Vertex)
    (indices : List ℤ) (primitive_groups : List (ℤ × ℤ × ℤ × ℤ))
    (vertex_format_name : String) (use_32bit_index : Bool) : ExportOutcome :=
  match getVertexFormat vertex_format_name with
  | none => ⟨none, some .unknownFormat⟩
  | some fmt =>
    exportResolved vertices indices primitive_groups use_32bit_index fmt

/-- A merged-space vertex position (`core/collision_processor.py`). -/
abbrev Vec3 := ℚ × ℚ × ℚ

/-- A triangle: three indices into the merged vertex space. -/
abbrev Tri := ℕ × ℕ × ℕ

/-- `LeafTriangleLimit` (`core/collision_processor.py` line 27). -/
def LeafTriangleLimit : ℕ := 128

/-- `MaxDepth` (`core/collision_processor.py` line 28). -/
def MaxDepth : ℕ := 16

/-- Python `centroid[axis]` for `axis ∈ {0,1,2}`. -/
def axisGet (c : Vec3) (axis : ℕ) : ℚ :=
  if axis = 0 then c.1 else if axis = 1 then c.2.1 else c.2.2

/-- The splitting plane stored on every node: `plane[axis] = 1.0`,
`plane[3] = d` (`core/collision_processor.py` lines 136-139, 165-167). -/
def axisPlane (axis : ℕ) (d : ℚ) : ℚ × ℚ × ℚ × ℚ :=
  (if axis = 0 then 1 else 0, if axis = 1 then 1 else 0,
   if axis = 2 then 1 else 0, d)

/-- `_triangle_centroid` (`core/collision_processor.py` lines 190-193). -/
def triangleCentroid (vertices : List Vec3) (tri : Tri) : Vec3 :=
  let v0 := vertices.getD tri.1 (0, 0, 0)
  let v1 := vertices.getD tri.2.1 (0, 0, 0)
  let v2 := vertices.getD tri.2.2 (0, 0, 0)
  ((v0.1 + v1.1 + v2.1) / 3, (v0.2.1 + v1.2.1 + v2.2.1) / 3,
   (v0.2.2 + v1.2.2 + v2.2.2) / 3)

/-- `_median` (`core/collision_processor.py` lines 195-203). -/
def median (values : List ℚ) : ℚ :=
  if values = [] then 0
  else
    let vs := sortAsc values
    let n := vs.length
    if n % 2 = 1 then vs.getD (n / 2) 0
    else (1 / 2) * (vs.getD (n / 2 - 1) 0 + vs.getD (n / 2) 0)

/-- One BSP node (`core/collision_processor.py` lines 141-147, 169-175):
axis-aligned splitting plane, child node indices (`-1` on leaves), and
the contiguous leaf range into the reordered triangle array. -/
structure BSPNode where
  plane : ℚ × ℚ × ℚ × ℚ
  childA : ℤ
  childB : ℤ
  triStart : ℕ
  triCount : ℕ
deriving DecidableEq

/-- The mutable state threaded through `build_node`: the `nodes` list and
the physically reordered `output_triangles` list. -/
structure BuildState where
  nodes : List BSPNode
  outputTriangles : List Tri
deriving DecidableEq

/-- The child-index backfill `nodes[i]["childA"], nodes[i]["childB"] = a, b`
(`core/collision_processor.py` lines 183-184). -/
def backfill (nodes : List BSPNode) (i : ℕ) (a b : ℤ) : List BSPNode :=
  match nodes[i]? with
  | some nd => nodes.set i { nd with childA := a, childB := b }
  | none => nodes

/-- The median split with even-bisection fallback
(`core/collision_processor.py` lines 151-161): partition by
`centroid[axis] ≤ median` / `> median`; if either side is empty, take an
even index-based bisection of `idx_list` instead. -/
def splitLists (centroids : List Vec3) (axis : ℕ) (m : ℚ)
    (idxList : List ℕ) : List ℕ × List ℕ :=
  let leftL := idxList.filter (fun i => decide (axisGet (centroids.getD i (0, 0, 0)) axis ≤ m))
  let rightL := idxList.filter (fun i => decide (axisGet (centroids.getD i (0, 0, 0)) axis > m))
  if leftL = [] ∨ rightL = [] then
    let half := idxList.length / 2
    (idxList.take half, idxList.drop half)
  else (leftL, rightL)

/-- The leaf branch of `build_node` (`core/collision_processor.py`
lines 126-148): append the subset's triangles to the output array, record
the node with `childA = childB = -1` over that contiguous range, store an
axis plane with `d = -median` anyway. -/
def leafStep (centroids : List Vec3) (triangles : List Tri)
    (idxList : List ℕ) (axis : ℕ) (st : BuildState) : BuildState × ℕ :=
  let triStart := st.outputTriangles.length
  let newOutput := st.outputTriangles ++ idxList.map (fun i => triangles.getD i (0, 0, 0))
  let nodeIndex := st.nodes.length
  let m := median (idxList.map (fun i => axisGet (centroids.getD i (0, 0, 0)) axis))
  (⟨st.nodes ++ [⟨axisPlane axis (-m), -1, -1, triStart, idxList.length⟩],
    newOutput⟩, nodeIndex)

/-- `build_node` (`core/collision_processor.py` lines 120-185): leaf when
`depth ≥ MaxDepth` or the subset holds ≤ `LeafTriangleLimit` triangles;
otherwise reserve a placeholder node, split by the centroid median along
the cycling axis (with even-bisection fallback), build both children at
`depth+1`, and backfill the child indices.  Returns the new state and the
index of the node built. -/
def buildNode (centroids : List Vec3) (triangles : List Tri)
    (idxList : List ℕ) (depth axis : ℕ) (st : BuildState) :
    BuildState × ℕ :=
  if MaxDepth ≤ depth ∨ idxList.length ≤ LeafTriangleLimit then
    leafStep centroids triangles idxList axis st
  else
    let m := median (idxList.map (fun i => axisGet (centroids.getD i (0, 0, 0)) axis))
    let lr := splitLists centroids axis m idxList
    let nodeIndex := st.nodes.length
    let st1 : BuildState :=
      ⟨st.nodes ++ [⟨axisPlane axis (-m), -1, -1, 0, 0⟩], st.outputTriangles⟩
    let resL := buildNode centroids triangles lr.1 (depth + 1) ((axis + 1) % 3) st1
    let resR := buildNode centroids triangles lr.2 (depth + 1) ((axis + 1) % 3) resL.1
    (⟨backfill resR.1.nodes nodeIndex (resL.2 : ℤ) (resR.2 : ℤ),
      resR.1.outputTriangles⟩, nodeIndex)
termination_by MaxDepth - depth
decreasing_by
  all_goals
    rename_i h
    rw [not_or] at h
    have := h.1
    simp only [not_le] at this
    omega

/-- `_build_bsp` (`core/collision_processor.py` lines 105-188): compute
centroids, run `build_node` on all triangle indices starting at depth 0
and axis X, and return the node list together with the reordered
triangle list. -/
def build_bsp (vertices : List Vec3) (triangles : List Tri) :
    List BSPNode × List Tri :=
  let centroids := triangles.map (fun t => triangleCentroid vertices t)
  let res := buildNode centroids triangles (List.range triangles.length) 0 0 ⟨[], []⟩
  (res.1.nodes, res.1.outputTriangles)

/-- The structural well-formedness of one node of a built BSP array
(spec §3 invariants): a leaf has `childA = childB = -1` and a contiguous
in-bounds output range; an internal node has `triCount = 0` and two valid
child indices. -/
def nodeOk (nd : BSPNode) (numNodes numOutput : ℕ) : Prop :=
  (nd.childA = -1 ∧ nd.childB = -1 ∧ nd.triStart + nd.triCount ≤ numOutput) ∨
  (0 ≤ nd.childA ∧ nd.childA < (numNodes : ℤ) ∧ 0 ≤ nd.childB ∧
   nd.childB < (numNodes : ℤ) ∧ nd.triCount = 0)

/-- How one `build_node` call extends the builder state: it returns the
index its node was reserved at (the entry node count), strictly grows the
node array, leaves all pre-existing node slots untouched, appends to the
output-triangle array exactly a permutation of the triangles fetched by
its index subset, and preserves the structural node invariant. -/
def BuildExtends (st st' : BuildState) (ret : ℕ) (fetched : List Tri) : Prop :=
  ret = st.nodes.length ∧
  st.nodes.length < st'.nodes.length ∧
  (∀ i, i < st.nodes.length → st'.nodes[i]? = st.nodes[i]?) ∧
  (∃ app, st'.outputTriangles = st.outputTriangles ++ app ∧
    List.Perm app fetched) ∧
  ((∀ nd ∈ st.nodes, nodeOk nd st.nodes.length st.outputTriangles.length) →
    (∀ nd ∈ st'.nodes, nodeOk nd st'.nodes.length st'.outputTriangles.length))

/-- A complete static-mesh vertex record (all `"xyznuvtb"` attributes). -/
def exampleVertexFull : Vertex :=
  [("position", .v3 0 0 0), ("normal", .v3 0 0 1), ("uv0", .v2 0 0),
   ("tangent", .v3 1 0 0), ("binormal", .v3 0 1 0)]

/-- A vertex record supplying the documented alias key `"uv"` in place of
`"uv0"`, all other `"xyznuvtb"` attributes present. -/
def exampleVertexUvAlias : Vertex :=
  [("position", .v3 0 0 0), ("normal", .v3 0 0 1), ("uv", .v2 0 0),
   ("tangent", .v3 1 0 0), ("binormal", .v3 0 1 0)]

/-- 65537 complete vertices: enough for a valid index value that does not
fit in 16 bits. -/
def bigVertexList : List Vertex := List.replicate 65537 exampleVertexFull

/-- An index buffer whose maximum entry (65536) is within the vertex
count of `bigVertexList` but beyond the 16-bit range. -/
def bigIndices : List ℤ := [0, 1, 65536]

/-- One primitive group covering `bigIndices` / `bigVertexList`. -/
def bigGroups : List (ℤ × ℤ × ℤ × ℤ) := [(0, 1, 0, 65537)]

/-- Decidable equality for writer results (used to evaluate the embedded
validation on concrete inputs). -/
instance {ε α : Type} [DecidableEq ε] [DecidableEq α] :
    DecidableEq (Except ε α) := fun x y =>
  match x, y with
  | .ok a, .ok b =>
    if h : a = b then isTrue (by rw [h])
    else isFalse (fun hc => by cases hc; exact h rfl)
  | .ok _, .error _ => isFalse (fun hc => by cases hc)
  | .error _, .ok _ => isFalse (fun hc => by cases hc)
  | .error a, .error b =>
    if h : a = b then isTrue (by rw [h])
    else isFalse (fun hc => by cases hc; exact h rfl)

/- ------------------------------------------------------------------
   Theorems.
   ------------------------------------------------------------------ -/

theorem pyclamp_eq_self {α : Type} [LinearOrder α] {x lo hi : α}
    (h1 : lo ≤ x) (h2 : x ≤ hi) : pyclamp x lo hi = x := by
  unfold pyclamp
  rw [min_eq_right h2, max_eq_right h1]

theorem pythonRound_le {α : Type} [LinearOrderedField α] [FloorRing α]
    [DecidableEq α] (x : α) : (pythonRound x : α) ≤ x + 1 / 2 := by
  unfold pythonRound
  split
  · rename_i h
    have h1 := h.1
    have h2 : (⌊x⌋ : α) = x - 1 / 2 := by linarith
    rw [h2]
    linarith
  · have h := abs_sub_round x
    rw [abs_le] at h
    linarith [h.1]

theorem le_pythonRound {α : Type} [LinearOrderedField α] [FloorRing α]
    [DecidableEq α] (x : α) : x - 1 / 2 ≤ (pythonRound x : α) := by
  unfold pythonRound
  split
  · rename_i h
    have h1 := h.1
    have h2 : (⌊x⌋ : α) = x - 1 / 2 := by linarith
    rw [h2]
  · have h := abs_sub_round x
    rw [abs_le] at h
    linarith [h.2]

theorem pythonRound_eq_round {α : Type} [LinearOrderedField α] [FloorRing α]
    [DecidableEq α] (x : α) (h : ¬ (x - ⌊x⌋ = 1 / 2 ∧ Even ⌊x⌋)) :
    pythonRound x = round x := by
  unfold pythonRound
  rw [if_neg h]

theorem insertDesc_perm (x : ℚ) (l : List ℚ) :
    List.Perm (insertDesc x l) (x :: l) := by
  induction l with
  | nil => simp [insertDesc]
  | cons y ys ih =>
    unfold insertDesc
    split
    · exact List.Perm.refl _
    · exact (ih.cons y).trans (List.Perm.swap x y ys)

theorem sortDesc_perm (l : List ℚ) : List.Perm (sortDesc l) l := by
  induction l with
  | nil => simp [sortDesc]
  | cons x xs ih =>
    exact (insertDesc_perm x (sortDesc xs)).trans (ih.cons x)

theorem pr_255_half : pythonRound ((255 : ℚ) / 2) = 128 := by
  have hf : ⌊(255 : ℚ) / 2⌋ = 127 := by
    rw [Int.floor_eq_iff]
    norm_num
  rw [pythonRound_eq_round]
  · rw [round_eq]
    norm_num
  · rw [hf]
    intro hc
    exact (by decide : ¬ Even (127 : ℤ)) hc.2

/-- C2 (counterexample): on the perfectly ordinary weight list `[1, 1]`
(two equal influences) the quantized triple is `(128, 128, 0)`, which
sums to 256, not 255: both halves round up to 128, the derived third
byte `255 - 128 - 128 = -1` is clamped to 0, and the sum invariant
breaks. -/
theorem quantize_weights_3_sum_counterexample :
    quantize_weights_3 [1, 1] = (128, 128, 0) ∧
    ¬ ((quantize_weights_3 [1, 1]).1 + (quantize_weights_3 [1, 1]).2.1 +
       (quantize_weights_3 [1, 1]).2.2 = 255) := by
  have hs : sortDesc [(1 : ℚ), 1] = [1, 1] := by
    norm_num [sortDesc, insertDesc]
  have hv : quantize_weights_3 [1, 1] = (128, 128, 0) := by
    simp only [quantize_weights_3, hs]
    norm_num [pyclamp, pr_255_half]
  refine ⟨hv, ?_⟩
  rw [hv]
  decide

theorem pythonRound_intCast (n : ℤ) : pythonRound ((n : ℚ)) = n := by
  have hne : ¬ (((n : ℚ) - ⌊(n : ℚ)⌋ = 1 / 2) ∧ Even ⌊(n : ℚ)⌋) := by
    rw [Int.floor_intCast]
    intro hcon
    have h1 := hcon.1
    norm_num at h1
  rw [pythonRound_eq_round _ hne, round_intCast]

theorem pythonRound_nonneg {x : ℚ} (hx : 0 ≤ x) : 0 ≤ pythonRound x := by
  have h := le_pythonRound x
  have hcast : (-1 : ℚ) < (pythonRound x : ℚ) := by linarith
  have : (-1 : ℤ) < pythonRound x := by exact_mod_cast hcast
  omega

theorem pythonRound_le_int {x : ℚ} {n : ℤ} (hx : x ≤ (n : ℚ)) :
    pythonRound x ≤ n := by
  have h := pythonRound_le x
  have hcast : (pythonRound x : ℚ) < (n : ℚ) + 1 := by linarith
  have : pythonRound x < n + 1 := by exact_mod_cast hcast
  omega

/-- C2 (amended): for nonnegative weight inputs the quantized triple sums
to 255 or 256. -/
theorem quantize_weights_3_sum (weights : List ℚ)
    (h : ∀ w ∈ weights, 0 ≤ w) :
    (quantize_weights_3 weights).1 + (quantize_weights_3 weights).2.1 +
      (quantize_weights_3 weights).2.2 = 255 ∨
    (quantize_weights_3 weights).1 + (quantize_weights_3 weights).2.1 +
      (quantize_weights_3 weights).2.2 = 256 := by
  have hlen : ((sortDesc weights).take 3 ++
      List.replicate (3 - ((sortDesc weights).take 3).length) (0 : ℚ)).length = 3 := by
    have h3 : ((sortDesc weights).take 3).length ≤ 3 := by
      simp [List.length_take]
    rw [List.length_append, List.length_replicate]
    omega
  obtain ⟨a, b, c, habc⟩ := List.length_eq_three.mp hlen
  have hnn : ∀ x ∈ ([a, b, c] : List ℚ), 0 ≤ x := by
    rw [← habc]
    intro x hx
    rcases List.mem_append.mp hx with hx | hx
    · exact h x ((sortDesc_perm weights).mem_iff.mp (List.mem_of_mem_take hx))
    · rw [List.eq_of_mem_replicate hx]
  have ha : 0 ≤ a := hnn a (by simp)
  have hb : 0 ≤ b := hnn b (by simp)
  have hcn : 0 ≤ c := hnn c (by simp)
  simp only [quantize_weights_3, habc, List.sum_cons, List.sum_nil, add_zero]
  rcases le_or_lt (a + (b + c)) (1 / 10 ^ 20) with hsle | hsgt
  · rw [if_pos hsle]
    have h255 : pythonRound ((1 : ℚ) * 255) = 255 := by
      rw [show ((1 : ℚ) * 255) = ((255 : ℤ) : ℚ) by norm_num, pythonRound_intCast]
    have h0 : pythonRound ((0 : ℚ) * 255) = 0 := by
      rw [show ((0 : ℚ) * 255) = ((0 : ℤ) : ℚ) by norm_num, pythonRound_intCast]
    simp only [List.getD_cons_zero, List.getD_cons_succ, h255, h0]
    decide
  · have hs : (0 : ℚ) < a + (b + c) := lt_trans (by norm_num) hsgt
    rw [if_neg (not_le.mpr hsgt)]
    simp only [List.map_cons, List.getD_cons_zero, List.getD_cons_succ]
    have hca : pyclamp (a / (a + (b + c))) 0 1 = a / (a + (b + c)) :=
      pyclamp_eq_self (div_nonneg ha hs.le) ((div_le_one hs).mpr (by linarith))
    have hcb : pyclamp (b / (a + (b + c))) 0 1 = b / (a + (b + c)) :=
      pyclamp_eq_self (div_nonneg hb hs.le) ((div_le_one hs).mpr (by linarith))
    rw [hca, hcb]
    have hale : a / (a + (b + c)) ≤ 1 := (div_le_one hs).mpr (by linarith)
    have hble : b / (a + (b + c)) ≤ 1 := (div_le_one hs).mpr (by linarith)
    have hq0n : 0 ≤ pythonRound (a / (a + (b + c)) * 255) :=
      pythonRound_nonneg (by positivity)
    have hq1n : 0 ≤ pythonRound (b / (a + (b + c)) * 255) :=
      pythonRound_nonneg (by positivity)
    have hq0le : pythonRound (a / (a + (b + c)) * 255) ≤ 255 :=
      pythonRound_le_int (by push_cast; nlinarith [hale])
    have hq1le : pythonRound (b / (a + (b + c)) * 255) ≤ 255 :=
      pythonRound_le_int (by push_cast; nlinarith [hble])
    have hsum : pythonRound (a / (a + (b + c)) * 255) +
        pythonRound (b / (a + (b + c)) * 255) ≤ 256 := by
      have h1 := pythonRound_le (a / (a + (b + c)) * 255)
      have h2 := pythonRound_le (b / (a + (b + c)) * 255)
      have hab : a / (a + (b + c)) + b / (a + (b + c)) ≤ 1 := by
        rw [div_add_div_same]
        exact (div_le_one hs).mpr (by linarith)
      have hcast : ((pythonRound (a / (a + (b + c)) * 255) +
          pythonRound (b / (a + (b + c)) * 255) : ℤ) : ℚ) < 257 := by
        push_cast
        nlinarith [hab, h1, h2]
      have hfin : pythonRound (a / (a + (b + c)) * 255) +
          pythonRound (b / (a + (b + c)) * 255) < 257 := by exact_mod_cast hcast
      omega
    omega

theorem quantize_weights_3_sum_witness :
    (∀ w ∈ ([1, 1] : List ℚ), 0 ≤ w) ∧
    ((quantize_weights_3 [1, 1]).1 + (quantize_weights_3 [1, 1]).2.1 +
      (quantize_weights_3 [1, 1]).2.2 = 255 ∨
     (quantize_weights_3 [1, 1]).1 + (quantize_weights_3 [1, 1]).2.1 +
      (quantize_weights_3 [1, 1]).2.2 = 256) := by
  have hnn : ∀ w ∈ ([1, 1] : List ℚ), 0 ≤ w := by
    intro w hw
    rcases List.mem_cons.mp hw with rfl | hw
    · norm_num
    rcases List.mem_cons.mp hw with rfl | hw
    · norm_num
    cases hw
  exact ⟨hnn, quantize_weights_3_sum [1, 1] hnn⟩

/-- C8: each component of `quantize_indices_3` is the corresponding input
value mod 256 when that slot is present and 0 when it is missing; inputs
beyond the third are discarded. -/
theorem quantize_indices_3_spec (l : List ℤ) :
    quantize_indices_3 l =
      ((if h : 0 < l.length then l.get ⟨0, h⟩ % 256 else 0),
       (if h : 1 < l.length then l.get ⟨1, h⟩ % 256 else 0),
       (if h : 2 < l.length then l.get ⟨2, h⟩ % 256 else 0)) := by
  match l with
  | [] => rfl
  | [a] => rfl
  | [a, b] => rfl
  | a :: b :: c :: rest =>
    have h0 : 0 < (a :: b :: c :: rest).length := by simp
    have h1 : 1 < (a :: b :: c :: rest).length := by
      simp only [List.length_cons]
      omega
    have h2 : 2 < (a :: b :: c :: rest).length := by
      simp only [List.length_cons]
      omega
    rw [dif_pos h0, dif_pos h1, dif_pos h2]
    rfl

theorem foldl_max_init_le (t : List ℤ) : ∀ a : ℤ, a ≤ t.foldl max a := by
  induction t with
  | nil => intro a; simp
  | cons y ys ih =>
    intro a
    simp only [List.foldl_cons]
    calc a ≤ max a y := le_max_left a y
    _ ≤ ys.foldl max (max a y) := ih (max a y)

theorem le_foldl_max (t : List ℤ) : ∀ a x : ℤ, x ∈ t → x ≤ t.foldl max a := by
  induction t with
  | nil => intro a x hx; cases hx
  | cons y ys ih =>
    intro a x hx
    simp only [List.foldl_cons]
    rcases List.mem_cons.mp hx with rfl | hx
    · calc x ≤ max a x := le_max_right a x
      _ ≤ ys.foldl max (max a x) := foldl_max_init_le ys (max a x)
    · exact ih (max a y) x hx

theorem le_listMax {l : List ℤ} {x : ℤ} (hx : x ∈ l) : x ≤ listMax l := by
  match l with
  | [] => cases hx
  | y :: ys =>
    rcases List.mem_cons.mp hx with rfl | hx
    · exact foldl_max_init_le ys x
    · exact le_foldl_max ys y x hx

theorem foldl_max_mem (t : List ℤ) : ∀ a : ℤ, t.foldl max a = a ∨ t.foldl max a ∈ t := by
  induction t with
  | nil => intro a; left; rfl
  | cons y ys ih =>
    intro a
    simp only [List.foldl_cons]
    rcases ih (max a y) with h | h
    · rcases max_choice a y with hm | hm
      · left; rw [h, hm]
      · right; rw [h, hm]; exact List.mem_cons_self y ys
    · right; exact List.mem_cons_of_mem y h

theorem listMax_mem {l : List ℤ} (h : l ≠ []) : listMax l ∈ l := by
  match l with
  | [] => exact absurd rfl h
  | y :: ys =>
    show ys.foldl max y ∈ y :: ys
    rcases foldl_max_mem ys y with h | h
    · rw [h]; exact List.mem_cons_self y ys
    · exact List.mem_cons_of_mem y h

theorem checkGroups_ok_facts (nI nV : ℤ) :
    ∀ (g0 : ℕ) (gs : List (ℤ × ℤ × ℤ × ℤ)),
      checkGroups nI nV g0 gs = .ok () →
      ∀ gr ∈ gs, 0 ≤ gr.1 ∧ 0 < gr.2.1 ∧ 0 ≤ gr.2.2.1 ∧ 0 < gr.2.2.2 ∧
        gr.1 + gr.2.1 * 3 ≤ nI ∧ gr.2.2.1 + gr.2.2.2 ≤ nV := by
  intro g0 gs
  induction gs generalizing g0 with
  | nil => intro _ gr hgr; cases hgr
  | cons g rest ih =>
    obtain ⟨startIdx, numPrims, startVtx, numVtx⟩ := g
    intro hok gr hgr
    rw [checkGroups] at hok
    split_ifs at hok with hc1 hc2 hc3
    rcases List.mem_cons.mp hgr with rfl | hgr
    · push_neg at hc1
      simp only [not_le] at hc2 hc3
      dsimp only
      omega
    · exact ih (g0 + 1) hok gr hgr

theorem checkGroups_err_kinds (nI nV : ℤ) :
    ∀ (g0 : ℕ) (gs : List (ℤ × ℤ × ℤ × ℤ)),
      (∀ gr ∈ gs, gr.1 + gr.2.1 * 3 ≤ nI ∧ gr.2.2.1 + gr.2.2.2 ≤ nV) →
      ∀ k, checkGroups nI nV g0 gs ≠ .error (.groupIndexOverflow k) ∧
           checkGroups nI nV g0 gs ≠ .error (.groupVertexOverflow k) := by
  intro g0 gs
  induction gs generalizing g0 with
  | nil => intro _ k; exact ⟨by simp [checkGroups], by simp [checkGroups]⟩
  | cons g rest ih =>
    obtain ⟨startIdx, numPrims, startVtx, numVtx⟩ := g
    intro hb k
    have hg := hb (startIdx, numPrims, startVtx, numVtx) (List.mem_cons_self _ _)
    dsimp only at hg
    rw [checkGroups]
    split
    · exact ⟨by simp, by simp⟩
    · have h1 : ¬ (startIdx + numPrims * 3 - 1 ≥ nI) := by omega
      rw [if_neg h1]
      have h2 : ¬ (startVtx + numVtx - 1 ≥ nV) := by omega
      rw [if_neg h2]
      exact ih (g0 + 1) (fun gr hgr => hb gr (List.mem_cons_of_mem _ hgr)) k

theorem checkGroups_ne_idxExceeds (nI nV : ℤ) :
    ∀ (g0 : ℕ) (gs : List (ℤ × ℤ × ℤ × ℤ)) (m : ℤ),
      checkGroups nI nV g0 gs ≠ .error (.indexExceedsVertexCount m) := by
  intro g0 gs
  induction gs generalizing g0 with
  | nil => intro m; simp [checkGroups]
  | cons g rest ih =>
    obtain ⟨startIdx, numPrims, startVtx, numVtx⟩ := g
    intro m
    rw [checkGroups]
    split_ifs with hc1 hc2 hc3
    · simp
    · simp
    · simp
    · exact ih (g0 + 1) m

/-- Case analysis of `_validate_inputs`: it either raises one of the
early errors, raises the index-range error at the recorded maximum, or
reduces to the primitive-group loop with all earlier checks known to
have passed. -/
theorem validateInputs_shape (v : List Vertex) (ind : List ℤ)
    (g : List (ℤ × ℤ × ℤ × ℤ)) (fmt : VertexFormat) :
    (∃ e, validateInputs v ind g fmt = .error e ∧
       (e = .noVertices ∨ (∃ i ks, e = .missingAttributes i ks) ∨
        e = .noIndices ∨ e = .negativeIndex ∨ e = .noGroups)) ∨
    (validateInputs v ind g fmt = .error (.indexExceedsVertexCount (listMax ind)) ∧
       ind ≠ [] ∧ (v.length : ℤ) ≤ listMax ind) ∨
    (validateInputs v ind g fmt = checkGroups (ind.length : ℤ) (v.length : ℤ) 0 g ∧
       v ≠ [] ∧ ind ≠ [] ∧ g ≠ [] ∧
       ¬ (ind.any (fun ix => ix < 0)) = true ∧
       listMax ind < (v.length : ℤ)) := by
  unfold validateInputs
  split
  · exact Or.inl ⟨_, rfl, Or.inl rfl⟩
  rename_i hc1
  split
  · exact Or.inl ⟨_, rfl, Or.inr (Or.inl ⟨_, _, rfl⟩)⟩
  split
  · exact Or.inl ⟨_, rfl, Or.inr (Or.inr (Or.inl rfl))⟩
  rename_i hc2
  split
  · exact Or.inl ⟨_, rfl, Or.inr (Or.inr (Or.inr (Or.inl rfl)))⟩
  rename_i hc3
  split
  · rename_i hc4
    refine Or.inr (Or.inl ⟨rfl, ?_, hc4⟩)
    intro hi
    exact hc2 (by rw [hi]; rfl)
  rename_i hc4
  split
  · exact Or.inl ⟨_, rfl, Or.inr (Or.inr (Or.inr (Or.inr rfl)))⟩
  rename_i hc5
  refine Or.inr (Or.inr ⟨rfl, ?_, ?_, ?_, hc3, not_le.mp hc4⟩)
  · intro hv
    exact hc1 (by rw [hv]; rfl)
  · intro hi
    exact hc2 (by rw [hi]; rfl)
  · intro hg
    exact hc5 (by rw [hg]; rfl)

theorem validateInputs_ok_facts {v : List Vertex} {ind : List ℤ}
    {g : List (ℤ × ℤ × ℤ × ℤ)} {fmt : VertexFormat}
    (hok : validateInputs v ind g fmt = .ok ()) :
    v ≠ [] ∧ ind ≠ [] ∧ g ≠ [] ∧ (∀ ix ∈ ind, 0 ≤ ix) ∧
    (∀ ix ∈ ind, ix < (v.length : ℤ)) ∧
    (∀ gr ∈ g, 0 ≤ gr.1 ∧ 0 < gr.2.1 ∧ 0 ≤ gr.2.2.1 ∧ 0 < gr.2.2.2 ∧
      gr.1 + gr.2.1 * 3 ≤ (ind.length : ℤ) ∧
      gr.2.2.1 + gr.2.2.2 ≤ (v.length : ℤ)) := by
  rcases validateInputs_shape v ind g fmt with ⟨e, he, _⟩ | ⟨he, _, _⟩ |
    ⟨he, hv, hi, hg, hany, hlt⟩
  · rw [hok] at he; cases he
  · rw [hok] at he; cases he
  · rw [hok] at he
    have hnn : ∀ ix ∈ ind, 0 ≤ ix := by
      intro ix hix
      by_contra hneg
      exact hany (List.any_eq_true.mpr ⟨ix, hix, by simpa using hneg⟩)
    have hltall : ∀ ix ∈ ind, ix < (v.length : ℤ) := by
      intro ix hix
      calc ix ≤ listMax ind := le_listMax hix
      _ < (v.length : ℤ) := hlt
    exact ⟨hv, hi, hg, hnn, hltall, checkGroups_ok_facts _ _ _ _ he.symm⟩

theorem validateInputs_passes_bounds {v : List Vertex} {ind : List ℤ}
    {g : List (ℤ × ℤ × ℤ × ℤ)} {fmt : VertexFormat}
    (hidx : ∀ ix ∈ ind, ix < (v.length : ℤ))
    (hgrp : ∀ gr ∈ g, gr.1 + gr.2.1 * 3 ≤ (ind.length : ℤ) ∧
      gr.2.2.1 + gr.2.2.2 ≤ (v.length : ℤ)) :
    ∀ m k, validateInputs v ind g fmt ≠ .error (.indexExceedsVertexCount m) ∧
      validateInputs v ind g fmt ≠ .error (.groupIndexOverflow k) ∧
      validateInputs v ind g fmt ≠ .error (.groupVertexOverflow k) := by
  intro m k
  rcases validateInputs_shape v ind g fmt with ⟨e, he, hkinds⟩ | ⟨he, hi, hge⟩ |
    ⟨he, _, _, _, _, _⟩
  · rw [he]
    rcases hkinds with rfl | ⟨i, ks, rfl⟩ | rfl | rfl | rfl
    · exact ⟨by simp, by simp, by simp⟩
    · exact ⟨by simp, by simp, by simp⟩
    · exact ⟨by simp, by simp, by simp⟩
    · exact ⟨by simp, by simp, by simp⟩
    · exact ⟨by simp, by simp, by simp⟩
  · exact absurd (hidx _ (listMax_mem hi)) (not_lt.mpr hge)
  · rw [he]
    exact ⟨checkGroups_ne_idxExceeds _ _ _ _ m,
      (checkGroups_err_kinds _ _ _ _ hgrp k).1,
      (checkGroups_err_kinds _ _ _ _ hgrp k).2⟩

theorem export_eq_resolved {v : List Vertex} {ind : List ℤ}
    {g : List (ℤ × ℤ × ℤ × ℤ)} {fname : String} {use32 : Bool}
    {fmt : VertexFormat} (hf : getVertexFormat fname = some fmt) :
    export_primitives_file v ind g fname use32 =
      exportResolved v ind g use32 fmt := by
  unfold export_primitives_file
  rw [hf]

theorem exportResolved_validation_error {v : List Vertex} {ind : List ℤ}
    {g : List (ℤ × ℤ × ℤ × ℤ)} {use32 : Bool} {fmt : VertexFormat}
    {e : VErr} (he : validateInputs v ind g fmt = .error e) :
    exportResolved v ind g use32 fmt = ⟨none, some e⟩ := by
  unfold exportResolved
  rw [he]

theorem exportResolved_ok {v : List Vertex} {ind : List ℤ}
    {g : List (ℤ × ℤ × ℤ × ℤ)} {use32 : Bool} {fmt : VertexFormat}
    (hok : validateInputs v ind g fmt = .ok ()) :
    exportResolved v ind g use32 fmt =
      (match (writeVertexSection v fmt).2 with
       | some e => ⟨some (writeVertexSection v fmt).1, some e⟩
       | none =>
         ⟨some ((writeVertexSection v fmt).1 ++
            (writeIndexSection ind g use32).1),
          (writeIndexSection ind g use32).2⟩) := by
  unfold exportResolved
  rw [hok]

/-- An input on which `_validate_inputs` cannot succeed makes every
`export_primitives_file` call on it raise a structured validation
error. -/
theorem export_error_of_no_valid_run (v : List Vertex) (ind : List ℤ)
    (g : List (ℤ × ℤ × ℤ × ℤ)) (fname : String) (use32 : Bool)
    (h : ∀ fmt, validateInputs v ind g fmt ≠ .ok ()) :
    (export_primitives_file v ind g fname use32).error.isSome := by
  cases hf : getVertexFormat fname with
  | none =>
    unfold export_primitives_file
    rw [hf]
    rfl
  | some fmt =>
    rw [export_eq_resolved hf]
    cases hv : validateInputs v ind g fmt with
    | error e => rw [exportResolved_validation_error hv]; rfl
    | ok u =>
      cases u
      exact absurd hv (h fmt)

/-- C6: the export rejects (raises a structured validation error for)
any input with an index value ≥ the vertex count or a primitive group
whose index or vertex range exceeds the buffers; conversely, inputs
satisfying these bounds never fail the two range checks
(`IndexOutOfRange` / `GroupRangeExceeded`). -/
theorem export_validation_bounds (v : List Vertex) (ind : List ℤ)
    (g : List (ℤ × ℤ × ℤ × ℤ)) (fmt : VertexFormat) :
    ((∃ ix ∈ ind, (v.length : ℤ) ≤ ix) ∨
     (∃ gr ∈ g, ¬ (gr.1 + gr.2.1 * 3 ≤ (ind.length : ℤ)) ∨
        ¬ (gr.2.2.1 + gr.2.2.2 ≤ (v.length : ℤ))) →
      (∃ e, validateInputs v ind g fmt = .error e) ∧
      ∀ fname use32,
        (export_primitives_file v ind g fname use32).error.isSome) ∧
    ((∀ ix ∈ ind, ix < (v.length : ℤ)) →
     (∀ gr ∈ g, gr.1 + gr.2.1 * 3 ≤ (ind.length : ℤ) ∧
        gr.2.2.1 + gr.2.2.2 ≤ (v.length : ℤ)) →
     ∀ m k, validateInputs v ind g fmt ≠ .error (.indexExceedsVertexCount m) ∧
        validateInputs v ind g fmt ≠ .error (.groupIndexOverflow k) ∧
        validateInputs v ind g fmt ≠ .error (.groupVertexOverflow k)) := by
  have hcontra : ∀ fmt' : VertexFormat,
      ((∃ ix ∈ ind, (v.length : ℤ) ≤ ix) ∨
       (∃ gr ∈ g, ¬ (gr.1 + gr.2.1 * 3 ≤ (ind.length : ℤ)) ∨
          ¬ (gr.2.2.1 + gr.2.2.2 ≤ (v.length : ℤ)))) →
      validateInputs v ind g fmt' ≠ .ok () := by
    intro fmt' hbad hres
    have hf := validateInputs_ok_facts hres
    rcases hbad with ⟨ix, hmem, hge⟩ | ⟨gr, hmem, hb⟩
    · exact absurd (hf.2.2.2.2.1 ix hmem) (not_lt.mpr hge)
    · have hfacts := hf.2.2.2.2.2 gr hmem
      rcases hb with hcase | hcase
      · exact hcase hfacts.2.2.2.2.1
      · exact hcase hfacts.2.2.2.2.2
  constructor
  · intro hbad
    constructor
    · match hres : validateInputs v ind g fmt with
      | .error e => exact ⟨e, rfl⟩
      | .ok () => exact absurd hres (hcontra fmt hbad)
    · intro fname use32
      exact export_error_of_no_valid_run v ind g fname use32
        (fun fmt' => hcontra fmt' hbad)
  · intro hidx hgrp
    exact validateInputs_passes_bounds hidx hgrp

theorem export_validation_bounds_witness :
    (∃ ix ∈ ([0, 0, 5] : List ℤ), (([exampleVertexFull].length : ℕ) : ℤ) ≤ ix) ∧
    ((∃ e, validateInputs [exampleVertexFull] [0, 0, 5] [(0, 1, 0, 1)]
        fmt_xyznuvtb = .error e) ∧
     ∀ fname use32, (export_primitives_file [exampleVertexFull] [0, 0, 5]
        [(0, 1, 0, 1)] fname use32).error.isSome) :=
  ⟨by decide,
   (export_validation_bounds [exampleVertexFull] [0, 0, 5] [(0, 1, 0, 1)]
      fmt_xyznuvtb).1 (Or.inl (by decide))⟩

/-- C10: the export is stricter than the spec's stated bounds checks: a
negative index value, a negative group start, or a non-positive group
prim/vertex count is rejected with a structured validation error. -/
theorem export_validation_strictness (v : List Vertex) (ind : List ℤ)
    (g : List (ℤ × ℤ × ℤ × ℤ)) (fmt : VertexFormat)
    (h : (∃ ix ∈ ind, ix < 0) ∨
         (∃ gr ∈ g, gr.1 < 0 ∨ gr.2.1 ≤ 0 ∨ gr.2.2.1 < 0 ∨ gr.2.2.2 ≤ 0)) :
    (∃ e, validateInputs v ind g fmt = .error e) ∧
    ∀ fname use32,
      (export_primitives_file v ind g fname use32).error.isSome := by
  have hcontra : ∀ fmt' : VertexFormat, validateInputs v ind g fmt' ≠ .ok () := by
    intro fmt' hres
    have hf := validateInputs_ok_facts hres
    rcases h with ⟨ix, hmem, hneg⟩ | ⟨gr, hmem, hb⟩
    · exact absurd (hf.2.2.2.1 ix hmem) (not_le.mpr hneg)
    · have hfacts := hf.2.2.2.2.2 gr hmem
      rcases hb with hcase | hcase | hcase | hcase
      · exact absurd hfacts.1 (not_le.mpr hcase)
      · exact absurd hfacts.2.1 (not_lt.mpr hcase)
      · exact absurd hfacts.2.2.1 (not_le.mpr hcase)
      · exact absurd hfacts.2.2.2.1 (not_lt.mpr hcase)
  constructor
  · match hres : validateInputs v ind g fmt with
    | .error e => exact ⟨e, rfl⟩
    | .ok () => exact absurd hres (hcontra fmt)
  · intro fname use32
    exact export_error_of_no_valid_run v ind g fname use32 hcontra

theorem export_validation_strictness_witness :
    (∃ ix ∈ ([(-1 : ℤ)]), ix < 0) ∧
    ((∃ e, validateInputs [exampleVertexFull] [-1] [(0, 1, 0, 1)]
        fmt_xyznuvtb = .error e) ∧
     ∀ fname use32, (export_primitives_file [exampleVertexFull] [-1]
        [(0, 1, 0, 1)] fname use32).error.isSome) :=
  ⟨by decide,
   export_validation_strictness [exampleVertexFull] [-1] [(0, 1, 0, 1)]
     fmt_xyznuvtb (Or.inl (by decide))⟩

/-- C4 (divergence evidence): a vertex record using the documented alias
key `"uv"` for `"uv0"` is accepted by `validate_vertex_dict` /
`validate_vertices` (first halves), but `export_primitives_file`'s own
pre-write check `_validate_inputs` rejects it as missing `"uv0"`. -/
theorem uv_alias_divergence :
    validate_vertex_dict exampleVertexUvAlias fmt_xyznuvtb = [] ∧
    validate_vertices [exampleVertexUvAlias] fmt_xyznuvtb = (true, "OK") ∧
    validateInputs [exampleVertexUvAlias] [0, 0, 0] [(0, 1, 0, 1)]
      fmt_xyznuvtb = .error (.missingAttributes 0 ["uv0"]) := by
  refine ⟨by decide, by decide, ?_⟩
  rfl



theorem firstMissing_replicate (req : List String) (v : Vertex)
    (h : req.filter (fun k => ¬ hasKey v k) = []) :
    ∀ n, firstMissing req (List.replicate n v) = none := by
  intro n
  induction n with
  | zero => rfl
  | succ n ih =>
    rw [List.replicate_succ]
    unfold firstMissing
    rw [if_pos h, ih]
    rfl

theorem big_validate_ok :
    validateInputs bigVertexList bigIndices bigGroups fmt_xyznuvtb = .ok () := by
  have h1 : firstMissing (fmt_xyznuvtb.attributes.map (fun a => a.name))
      bigVertexList = none := firstMissing_replicate _ _ (by decide) 65537
  have h2 : bigVertexList.length = 65537 := List.length_replicate _ _
  unfold validateInputs
  rw [h2, h1]
  decide

/-- C1 (counterexample): an export with 16-bit indices requested and a
valid index value 65536 passes `_validate_inputs`, so the destination
file is created and the vertex section written; only then does
`_write_index_section` raise `IndexRangeExceeded`.  The claim that every
validation failure leaves the destination untouched is therefore false:
this export raises a validation error yet the destination file exists
(with partial content). -/
theorem export_partial_write_counterexample :
    (export_primitives_file bigVertexList bigIndices bigGroups "xyznuvtb"
      false).error.isSome ∧
    (export_primitives_file bigVertexList bigIndices bigGroups "xyznuvtb"
      false).fileState ≠ none := by
  rw [export_eq_resolved (rfl : getVertexFormat "xyznuvtb" = some fmt_xyznuvtb)]
  rw [exportResolved_ok big_validate_ok]
  cases h2 : (writeVertexSection bigVertexList fmt_xyznuvtb).2 with
  | some e => exact ⟨rfl, by simp⟩
  | none =>
    have hidx : (writeIndexSection bigIndices bigGroups false).2 =
        some VErr.indexRangeExceeded16 := by decide
    rw [hidx]
    exact ⟨rfl, by simp⟩

/-- C1 (amended): every failure raised up to and including
`_validate_inputs` — unknown format, empty inputs, missing attributes,
negative or out-of-range indices, invalid groups — is raised before the
destination is opened, so a failed export of that kind creates or
modifies no file.  (The one later failure, the 16-bit
`IndexRangeExceeded` check inside `_write_index_section`, happens after
the file is opened and partially written; see the counterexample.) -/
theorem export_no_file_on_validation_failure (v : List Vertex)
    (ind : List ℤ) (g : List (ℤ × ℤ × ℤ × ℤ)) (fname : String)
    (use32 : Bool)
    (h : ∀ fmt, getVertexFormat fname = some fmt →
      ∃ e, validateInputs v ind g fmt = .error e) :
    (export_primitives_file v ind g fname use32).fileState = none := by
  cases hf : getVertexFormat fname with
  | none =>
    unfold export_primitives_file
    rw [hf]
  | some fmt =>
    obtain ⟨e, he⟩ := h fmt hf
    rw [export_eq_resolved hf, exportResolved_validation_error he]

theorem export_no_file_on_validation_failure_witness :
    (∀ fmt, getVertexFormat "xyznuvtb" = some fmt →
      ∃ e, validateInputs [] [0] [(0, 1, 0, 1)] fmt = .error e) ∧
    (export_primitives_file [] [0] [(0, 1, 0, 1)] "xyznuvtb"
      false).fileState = none := by
  have h : ∀ fmt, getVertexFormat "xyznuvtb" = some fmt →
      ∃ e, validateInputs [] [0] [(0, 1, 0, 1)] fmt = .error e := by
    intro fmt hf
    have hx : some fmt_xyznuvtb = some fmt := hf
    injection hx with hx
    subst hx
    exact ⟨.noVertices, by decide⟩
  exact ⟨h, export_no_file_on_validation_failure [] [0] [(0, 1, 0, 1)]
    "xyznuvtb" false h⟩

theorem nodeOk_mono {nd : BSPNode} {n1 o1 n2 o2 : ℕ} (h : nodeOk nd n1 o1)
    (hn : n1 ≤ n2) (ho : o1 ≤ o2) : nodeOk nd n2 o2 := by
  unfold nodeOk at h ⊢
  rcases h with ⟨h1, h2, h3⟩ | ⟨h1, h2, h3, h4, h5⟩
  · exact Or.inl ⟨h1, h2, h3.trans ho⟩
  · right
    refine ⟨h1, ?_, h3, ?_, h5⟩
    · calc nd.childA < (n1 : ℤ) := h2
      _ ≤ (n2 : ℤ) := by exact_mod_cast hn
    · calc nd.childB < (n1 : ℤ) := h4
      _ ≤ (n2 : ℤ) := by exact_mod_cast hn

theorem backfill_length (nodes : List BSPNode) (i : ℕ) (a b : ℤ) :
    (backfill nodes i a b).length = nodes.length := by
  unfold backfill
  split
  · rw [List.length_set]
  · rfl

theorem backfill_getElem_ne (nodes : List BSPNode) (i j : ℕ) (a b : ℤ)
    (h : i ≠ j) : (backfill nodes i a b)[j]? = nodes[j]? := by
  unfold backfill
  split
  · exact List.getElem?_set_ne h
  · rfl

theorem backfill_eq_set {nodes : List BSPNode} {i : ℕ} {nd : BSPNode}
    (h : nodes[i]? = some nd) (a b : ℤ) :
    backfill nodes i a b = nodes.set i { nd with childA := a, childB := b } := by
  unfold backfill
  rw [h]

theorem splitLists_perm (cs : List Vec3) (axis : ℕ) (m : ℚ)
    (idxList : List ℕ) :
    List.Perm ((splitLists cs axis m idxList).1 ++
      (splitLists cs axis m idxList).2) idxList := by
  simp only [splitLists]
  split
  · dsimp only
    rw [List.take_append_drop]
  · dsimp only
    have hfun : (fun i => decide (axisGet (cs.getD i (0, 0, 0)) axis > m)) =
        (fun i => ! decide (axisGet (cs.getD i (0, 0, 0)) axis ≤ m)) := by
      funext i
      by_cases hc : axisGet (cs.getD i (0, 0, 0)) axis ≤ m
      · rw [decide_eq_true hc, decide_eq_false (not_lt.mpr hc)]
        rfl
      · rw [decide_eq_false hc, decide_eq_true (lt_of_not_le hc)]
        rfl
    rw [hfun]
    exact List.filter_append_perm _ idxList

theorem splitLists_progress (cs : List Vec3) (axis : ℕ) (m : ℚ)
    (idxList : List ℕ) (h : LeafTriangleLimit < idxList.length) :
    (splitLists cs axis m idxList).1 ≠ [] ∧
    (splitLists cs axis m idxList).2 ≠ [] ∧
    (splitLists cs axis m idxList).1.length < idxList.length ∧
    (splitLists cs axis m idxList).2.length < idxList.length := by
  have hlim : (128 : ℕ) < idxList.length := h
  have hlen := (splitLists_perm cs axis m idxList).length_eq
  rw [List.length_append] at hlen
  have hne : (splitLists cs axis m idxList).1 ≠ [] ∧
      (splitLists cs axis m idxList).2 ≠ [] := by
    simp only [splitLists]
    split
    · dsimp only
      constructor
      · intro hc
        have hc' := congrArg List.length hc
        rw [List.length_take] at hc'
        simp only [List.length_nil] at hc'
        omega
      · intro hc
        have hc' := congrArg List.length hc
        rw [List.length_drop] at hc'
        simp only [List.length_nil] at hc'
        omega
    · rename_i hcond
      push_neg at hcond
      exact ⟨hcond.1, hcond.2⟩
  have l1 := List.length_pos.mpr hne.1
  have l2 := List.length_pos.mpr hne.2
  exact ⟨hne.1, hne.2, by omega, by omega⟩

theorem map_getD_range {α : Type} (l : List α) (d : α) :
    (List.range l.length).map (fun i => l.getD i d) = l := by
  induction l with
  | nil => rfl
  | cons a t ih =>
    rw [List.length_cons, List.range_succ_eq_map, List.map_cons, List.map_map]
    simp only [Function.comp_def, List.getD_cons_zero, List.getD_cons_succ]
    rw [ih]

theorem leafStep_extends (centroids : List Vec3) (triangles : List Tri)
    (idxList : List ℕ) (axis : ℕ) (st : BuildState) :
    BuildExtends st (leafStep centroids triangles idxList axis st).1
      (leafStep centroids triangles idxList axis st).2
      (idxList.map (fun i => triangles.getD i (0, 0, 0))) := by
  unfold leafStep BuildExtends
  dsimp only
  refine ⟨rfl, ?_, ?_, ?_, ?_⟩
  · rw [List.length_append]
    simp
  · intro i hi
    exact List.getElem?_append_left hi
  · exact ⟨_, rfl, List.Perm.refl _⟩
  · intro hP nd hnd
    rcases List.mem_append.mp hnd with hnd | hnd
    · refine nodeOk_mono (hP nd hnd) ?_ ?_
      · rw [List.length_append]
        omega
      · rw [List.length_append]
        omega
    · rw [List.mem_singleton.mp hnd]
      left
      refine ⟨rfl, rfl, ?_⟩
      rw [List.length_append, List.length_map]

theorem buildNode_spec (centroids : List Vec3) (triangles : List Tri) :
    ∀ (d depth axis : ℕ) (idxList : List ℕ) (st : BuildState),
      MaxDepth - depth ≤ d →
      BuildExtends st (buildNode centroids triangles idxList depth axis st).1
        (buildNode centroids triangles idxList depth axis st).2
        (idxList.map (fun i => triangles.getD i (0, 0, 0))) := by
  intro d
  induction d with
  | zero =>
    intro depth axis idxList st hd
    have hdep : MaxDepth ≤ depth := by
      have : MaxDepth - depth = 0 := by omega
      by_contra hc
      push_neg at hc
      omega
    rw [buildNode, if_pos (Or.inl hdep)]
    exact leafStep_extends centroids triangles idxList axis st
  | succ d ih =>
    intro depth axis idxList st hd
    rw [buildNode]
    split
    · exact leafStep_extends centroids triangles idxList axis st
    · rename_i hcond
      rw [not_or] at hcond
      have hdep : depth < MaxDepth := by
        have := hcond.1
        omega
      have hmeas : MaxDepth - (depth + 1) ≤ d := by omega
      dsimp only
      set m := median (idxList.map (fun i =>
        axisGet (centroids.getD i (0, 0, 0)) axis)) with hm
      set L := (splitLists centroids axis m idxList).1 with hL
      set R := (splitLists centroids axis m idxList).2 with hR
      set nodeIndex := st.nodes.length with hnodeIndex
      set ph : BSPNode := ⟨axisPlane axis (-m), -1, -1, 0, 0⟩ with hph
      set st1 : BuildState := ⟨st.nodes ++ [ph], st.outputTriangles⟩ with hst1
      have hLspec := ih (depth + 1) ((axis + 1) % 3) L st1 hmeas
      set resL := buildNode centroids triangles L (depth + 1) ((axis + 1) % 3) st1
        with hresL
      have hRspec := ih (depth + 1) ((axis + 1) % 3) R resL.1 hmeas
      set resR := buildNode centroids triangles R (depth + 1) ((axis + 1) % 3) resL.1
        with hresR
      obtain ⟨hLret, hLlen, hLpres, ⟨appL, hLout, hLperm⟩, hLinv⟩ := hLspec
      obtain ⟨hRret, hRlen, hRpres, ⟨appR, hRout, hRperm⟩, hRinv⟩ := hRspec
      have hst1len : st1.nodes.length = st.nodes.length + 1 := by
        rw [hst1]
        exact List.length_append _ _ ▸ rfl
      have hbackLen : (backfill resR.1.nodes nodeIndex (resL.2 : ℤ)
          (resR.2 : ℤ)).length = resR.1.nodes.length := backfill_length _ _ _ _
      unfold BuildExtends
      dsimp only
      refine ⟨rfl, ?_, ?_, ?_, ?_⟩
      · rw [hbackLen]
        omega
      · intro i hi
        rw [backfill_getElem_ne _ _ _ _ _ (by omega : nodeIndex ≠ i)]
        rw [hRpres i (by omega), hLpres i (by omega)]
        exact List.getElem?_append_left hi
      · refine ⟨appL ++ appR, ?_, ?_⟩
        · rw [hRout, hLout, List.append_assoc]
        · have h1 : List.Perm (appL ++ appR)
              (L.map (fun i => triangles.getD i (0, 0, 0)) ++
               R.map (fun i => triangles.getD i (0, 0, 0))) :=
            List.Perm.append hLperm hRperm
          rw [← List.map_append] at h1
          exact h1.trans
            ((splitLists_perm centroids axis m idxList).map _)
      · intro hP nd hnd
        have hPst1 : ∀ nd' ∈ st1.nodes,
            nodeOk nd' st1.nodes.length st1.outputTriangles.length := by
          intro nd' hnd'
          have hnd'' : nd' ∈ st.nodes ++ [ph] := hnd'
          rcases List.mem_append.mp hnd'' with hmem | hmem
          · refine nodeOk_mono (hP nd' hmem) (by omega) ?_
            exact le_refl _
          · rw [List.mem_singleton.mp hmem]
            left
            refine ⟨rfl, rfl, ?_⟩
            rw [hph]
            dsimp only
            omega
        have hPR := hRinv (hLinv hPst1)
        have hph_at : resR.1.nodes[nodeIndex]? = some ph := by
          rw [hRpres nodeIndex (by omega), hLpres nodeIndex (by omega)]
          exact List.getElem?_concat_length _ _
        rw [backfill_eq_set hph_at] at hnd ⊢
        rcases List.mem_or_eq_of_mem_set hnd with hmem | heq
        · refine nodeOk_mono (hPR nd hmem) ?_ ?_
          · rw [List.length_set]
          · exact le_refl _
        · rw [heq]
          right
          dsimp only
          have hA : resL.2 < (resR.1.nodes.set nodeIndex
              { ph with childA := (resL.2 : ℤ), childB := (resR.2 : ℤ) }).length := by
            rw [List.length_set]
            omega
          have hB : resR.2 < (resR.1.nodes.set nodeIndex
              { ph with childA := (resL.2 : ℤ), childB := (resR.2 : ℤ) }).length := by
            rw [List.length_set]
            omega
          exact ⟨Int.natCast_nonneg _, by exact_mod_cast hA,
            Int.natCast_nonneg _, by exact_mod_cast hB, rfl⟩
/-- C3: the output triangle array of `_build_bsp` — the leaf ranges
concatenated in leaf-creation order — is a permutation of the input
triangle list: no triangle is lost and none is duplicated. -/
theorem build_bsp_perm (vertices : List Vec3) (triangles : List Tri)
    (_h : triangles ≠ []) :
    List.Perm (build_bsp vertices triangles).2 triangles := by
  unfold build_bsp
  dsimp only
  obtain ⟨_, _, _, ⟨app, hout, hperm⟩, _⟩ :=
    buildNode_spec (triangles.map (fun t => triangleCentroid vertices t))
      triangles MaxDepth 0 0 (List.range triangles.length) ⟨[], []⟩ (by omega)
  rw [hout]
  rw [map_getD_range triangles ((0, 0, 0) : Tri)] at hperm
  exact (List.nil_append app) ▸ hperm

theorem build_bsp_perm_witness :
    (([((0, 0, 0) : Tri)]) ≠ ([] : List Tri)) ∧
    List.Perm (build_bsp [((0 : ℚ), (0 : ℚ), (0 : ℚ))] [((0, 0, 0) : Tri)]).2
      [((0, 0, 0) : Tri)] :=
  ⟨by decide, build_bsp_perm [((0 : ℚ), (0 : ℚ), (0 : ℚ))] [((0, 0, 0) : Tri)]
    (by decide)⟩

/-- C7: every node array produced by the BSP builder satisfies the
structural invariant: a leaf has `childA = childB = -1` and an in-bounds
contiguous output range, an internal node has `triCount = 0` and two
valid child node indices. -/
theorem build_bsp_structural (vertices : List Vec3) (triangles : List Tri) :
    ∀ nd ∈ (build_bsp vertices triangles).1,
      nodeOk nd (build_bsp vertices triangles).1.length
        (build_bsp vertices triangles).2.length := by
  unfold build_bsp
  dsimp only
  have hspec :=
    buildNode_spec (triangles.map (fun t => triangleCentroid vertices t))
      triangles MaxDepth 0 0 (List.range triangles.length) ⟨[], []⟩ (by omega)
  refine hspec.2.2.2.2 ?_
  intro nd hnd
  exact absurd hnd (List.not_mem_nil nd)

/-- C5: `build_node` terminates with recursion depth bounded by
`MaxDepth = 16` — at `depth ≥ MaxDepth` it unconditionally builds a leaf,
performing no recursive call — and on any subset larger than the leaf
limit the median split with even-bisection fallback always produces two
non-empty, strictly smaller subsets, so no degenerate centroid
distribution can stall or error the recursion.  (`buildNode` itself is a
total function whose definition is well-founded precisely on
`MaxDepth - depth`.) -/
theorem build_node_termination (centroids : List Vec3) (triangles : List Tri)
    (idxList : List ℕ) (depth axis : ℕ) (st : BuildState)
    (_hne : idxList ≠ []) :
    (MaxDepth ≤ depth →
      buildNode centroids triangles idxList depth axis st =
        leafStep centroids triangles idxList axis st) ∧
    (LeafTriangleLimit < idxList.length →
      (splitLists centroids axis (median (idxList.map (fun i =>
         axisGet (centroids.getD i (0, 0, 0)) axis))) idxList).1 ≠ [] ∧
      (splitLists centroids axis (median (idxList.map (fun i =>
         axisGet (centroids.getD i (0, 0, 0)) axis))) idxList).2 ≠ [] ∧
      (splitLists centroids axis (median (idxList.map (fun i =>
         axisGet (centroids.getD i (0, 0, 0)) axis))) idxList).1.length <
        idxList.length ∧
      (splitLists centroids axis (median (idxList.map (fun i =>
         axisGet (centroids.getD i (0, 0, 0)) axis))) idxList).2.length <
        idxList.length) := by
  constructor
  · intro hdep
    rw [buildNode, if_pos (Or.inl hdep)]
  · intro hlim
    exact splitLists_progress centroids axis _ idxList hlim

theorem build_node_termination_witness :
    (([0] : List ℕ) ≠ []) ∧
    ((MaxDepth ≤ 16 →
      buildNode [] [] [0] 16 0 ⟨[], []⟩ = leafStep [] [] [0] 0 ⟨[], []⟩) ∧
    (LeafTriangleLimit < ([0] : List ℕ).length →
      (splitLists [] 0 (median (([0] : List ℕ).map (fun i =>
         axisGet (List.getD [] i (0, 0, 0)) 0))) [0]).1 ≠ [] ∧
      (splitLists [] 0 (median (([0] : List ℕ).map (fun i =>
         axisGet (List.getD [] i (0, 0, 0)) 0))) [0]).2 ≠ [] ∧
      (splitLists [] 0 (median (([0] : List ℕ).map (fun i =>
         axisGet (List.getD [] i (0, 0, 0)) 0))) [0]).1.length <
        ([0] : List ℕ).length ∧
      (splitLists [] 0 (median (([0] : List ℕ).map (fun i =>
         axisGet (List.getD [] i (0, 0, 0)) 0))) [0]).2.length <
        ([0] : List ℕ).length)) :=
  ⟨by decide, build_node_termination [] [] [0] 16 0 ⟨[], []⟩ (by decide)⟩

theorem channel_bound (x : ℝ) (h0 : 0 ≤ x) (h1 : x ≤ 1) :
    max 0 (min 65535 (pythonRound (x * 65535))) = pythonRound (x * 65535) ∧
    (0 : ℤ) ≤ pythonRound (x * 65535) ∧
    pythonRound (x * 65535) ≤ 65535 ∧
    |((pythonRound (x * 65535) : ℤ) : ℝ) / 65535 - x| ≤ 1 / 131070 := by
  have hts : (0 : ℝ) ≤ x * 65535 := by positivity
  have hts2 : x * 65535 ≤ 65535 := by nlinarith
  have hlo := le_pythonRound (x * 65535)
  have hhi := pythonRound_le (x * 65535)
  have hn0 : (0 : ℤ) ≤ pythonRound (x * 65535) := by
    have hc : (-1 : ℝ) < ((pythonRound (x * 65535) : ℤ) : ℝ) := by linarith
    have hc2 : (-1 : ℤ) < pythonRound (x * 65535) := by exact_mod_cast hc
    omega
  have hn1 : pythonRound (x * 65535) ≤ 65535 := by
    have hc : ((pythonRound (x * 65535) : ℤ) : ℝ) < 65536 := by linarith
    have hc2 : pythonRound (x * 65535) < 65536 := by exact_mod_cast hc
    omega
  refine ⟨?_, hn0, hn1, ?_⟩
  · rw [min_eq_right hn1, max_eq_right hn0]
  · rw [abs_le]
    constructor
    · linarith
    · linarith

theorem decompress_spherical (u v : ℤ) (hu0 : 0 ≤ u) (hu1 : u ≤ 65535)
    (hv0 : 0 ≤ v) (hv1 : v ≤ 65535) :
    decompress_u16x2_to_dir u v =
      (Real.cos ((v : ℝ) / 65535 * Real.pi - Real.pi / 2) *
         Real.cos ((u : ℝ) / 65535 * (2 * Real.pi) - Real.pi),
       Real.cos ((v : ℝ) / 65535 * Real.pi - Real.pi / 2) *
         Real.sin ((u : ℝ) / 65535 * (2 * Real.pi) - Real.pi),
       Real.sin ((v : ℝ) / 65535 * Real.pi - Real.pi / 2)) := by
  have hcu : pyclamp ((u : ℝ) / 65535) 0 1 = (u : ℝ) / 65535 := by
    refine pyclamp_eq_self (by positivity) ?_
    rw [div_le_one (by norm_num : (0 : ℝ) < 65535)]
    exact_mod_cast hu1
  have hcv : pyclamp ((v : ℝ) / 65535) 0 1 = (v : ℝ) / 65535 := by
    refine pyclamp_eq_self (by positivity) ?_
    rw [div_le_one (by norm_num : (0 : ℝ) < 65535)]
    exact_mod_cast hv1
  unfold decompress_u16x2_to_dir
  dsimp only
  rw [hcu, hcv]
  set phi := (u : ℝ) / 65535 * (2 * Real.pi) - Real.pi with hphi
  set theta := (v : ℝ) / 65535 * Real.pi - Real.pi / 2 with htheta
  unfold normalize3
  dsimp only
  have hone : Real.cos theta * Real.cos phi * (Real.cos theta * Real.cos phi) +
      Real.cos theta * Real.sin phi * (Real.cos theta * Real.sin phi) +
      Real.sin theta * Real.sin theta = 1 := by
    have hp := Real.cos_sq_add_sin_sq phi
    have ht := Real.cos_sq_add_sin_sq theta
    nlinarith [hp, ht]
  rw [hone, Real.sqrt_one]
  rw [if_neg (by norm_num)]
  simp
theorem compress_eq (x y z : ℝ) (h : x * x + y * y + z * z = 1)
    (hz : -1 ≤ z ∧ z ≤ 1) :
    compress_dir_to_u16x2 x y z =
      (max 0 (min 65535 (pythonRound
        ((atan2 y x + Real.pi) / (2 * Real.pi) * 65535))),
       max 0 (min 65535 (pythonRound
        ((Real.arcsin z + Real.pi / 2) / Real.pi * 65535)))) := by
  have hnorm : normalize3 x y z = (x, y, z) := by
    unfold normalize3
    dsimp only
    rw [h, Real.sqrt_one]
    rw [if_neg (by norm_num)]
    simp
  unfold compress_dir_to_u16x2
  dsimp only
  rw [hnorm]
  dsimp only
  rw [pyclamp_eq_self hz.1 hz.2]

/-- C9: for every unit vector, the decompressed direction is the
spherical point at an azimuth within `2π/65536` of the input's azimuth
`atan2(y, x)` and an elevation within `π/65536` of the input's elevation
`arcsin z`; in particular the elevation of the round-tripped vector
(`arcsin` of its z-component) deviates from the input elevation by at
most `π/65536`. -/
theorem dir_roundtrip (x y z : ℝ) (h : x ^ 2 + y ^ 2 + z ^ 2 = 1) :
    ∃ phi theta : ℝ,
      decompress_u16x2_to_dir (compress_dir_to_u16x2 x y z).1
        (compress_dir_to_u16x2 x y z).2 =
        (Real.cos theta * Real.cos phi, Real.cos theta * Real.sin phi,
         Real.sin theta) ∧
      |phi - atan2 y x| ≤ 2 * Real.pi / 65536 ∧
      |theta - Real.arcsin z| ≤ Real.pi / 65536 ∧
      |Real.arcsin (Real.sin theta) - Real.arcsin z| ≤ Real.pi / 65536 := by
  have h' : x * x + y * y + z * z = 1 := by nlinarith [h]
  have hz2 : z ^ 2 ≤ 1 := by nlinarith [sq_nonneg x, sq_nonneg y]
  have hz : -1 ≤ z ∧ z ≤ 1 :=
    ⟨by nlinarith [hz2, sq_nonneg (z + 1)], by nlinarith [hz2, sq_nonneg (z - 1)]⟩
  have hpi := Real.pi_pos
  have hphil : -Real.pi < atan2 y x := Complex.neg_pi_lt_arg _
  have hphir : atan2 y x ≤ Real.pi := Complex.arg_le_pi _
  have hp0 : 0 ≤ (atan2 y x + Real.pi) / (2 * Real.pi) :=
    div_nonneg (by linarith) (by linarith)
  have hp1 : (atan2 y x + Real.pi) / (2 * Real.pi) ≤ 1 := by
    rw [div_le_one (by linarith)]
    linarith
  have htl : -(Real.pi / 2) ≤ Real.arcsin z := Real.neg_pi_div_two_le_arcsin z
  have htr : Real.arcsin z ≤ Real.pi / 2 := Real.arcsin_le_pi_div_two z
  have ht0 : 0 ≤ (Real.arcsin z + Real.pi / 2) / Real.pi :=
    div_nonneg (by linarith) (by linarith)
  have ht1 : (Real.arcsin z + Real.pi / 2) / Real.pi ≤ 1 := by
    rw [div_le_one hpi]
    linarith
  obtain ⟨hcl1, hu0, hu1, hub⟩ :=
    channel_bound ((atan2 y x + Real.pi) / (2 * Real.pi)) hp0 hp1
  obtain ⟨hcl2, hv0, hv1, hvb⟩ :=
    channel_bound ((Real.arcsin z + Real.pi / 2) / Real.pi) ht0 ht1
  have hcuv : compress_dir_to_u16x2 x y z =
      (pythonRound ((atan2 y x + Real.pi) / (2 * Real.pi) * 65535),
       pythonRound ((Real.arcsin z + Real.pi / 2) / Real.pi * 65535)) := by
    rw [compress_eq x y z h' hz, hcl1, hcl2]
  have helev : |((pythonRound ((Real.arcsin z + Real.pi / 2) / Real.pi * 65535) : ℤ) : ℝ) /
        65535 * Real.pi - Real.pi / 2 - Real.arcsin z| ≤ Real.pi / 65536 := by
    have heq : ((pythonRound ((Real.arcsin z + Real.pi / 2) / Real.pi * 65535) : ℤ) : ℝ) /
          65535 * Real.pi - Real.pi / 2 - Real.arcsin z =
        (((pythonRound ((Real.arcsin z + Real.pi / 2) / Real.pi * 65535) : ℤ) : ℝ) /
          65535 - (Real.arcsin z + Real.pi / 2) / Real.pi) * Real.pi := by
      field_simp
      ring
    rw [heq, abs_mul, abs_of_pos hpi]
    have hstep := mul_le_mul_of_nonneg_right hvb (le_of_lt hpi)
    refine hstep.trans ?_
    linarith
  have hv01a : (0 : ℝ) ≤ ((pythonRound ((Real.arcsin z + Real.pi / 2) / Real.pi *
      65535) : ℤ) : ℝ) / 65535 :=
    div_nonneg (by exact_mod_cast hv0) (by norm_num)
  have hv01b : ((pythonRound ((Real.arcsin z + Real.pi / 2) / Real.pi *
      65535) : ℤ) : ℝ) / 65535 ≤ 1 := by
    rw [div_le_one (by norm_num : (0 : ℝ) < 65535)]
    exact_mod_cast hv1
  rw [hcuv]
  rw [decompress_spherical _ _ hu0 hu1 hv0 hv1]
  refine ⟨_, _, rfl, ?_, ?_, ?_⟩
  · -- azimuth bound
    have heq : ((pythonRound ((atan2 y x + Real.pi) / (2 * Real.pi) * 65535) : ℤ) : ℝ) /
          65535 * (2 * Real.pi) - Real.pi - atan2 y x =
        (((pythonRound ((atan2 y x + Real.pi) / (2 * Real.pi) * 65535) : ℤ) : ℝ) /
          65535 - (atan2 y x + Real.pi) / (2 * Real.pi)) * (2 * Real.pi) := by
      field_simp
      ring
    rw [heq, abs_mul, abs_of_pos (by linarith : (0 : ℝ) < 2 * Real.pi)]
    have hstep : |((pythonRound ((atan2 y x + Real.pi) / (2 * Real.pi) * 65535) : ℤ) : ℝ) /
          65535 - (atan2 y x + Real.pi) / (2 * Real.pi)| * (2 * Real.pi) ≤
        (1 / 131070) * (2 * Real.pi) :=
      mul_le_mul_of_nonneg_right hub (by linarith)
    refine hstep.trans ?_
    linarith
  · exact helev
  · rw [Real.arcsin_sin (by nlinarith) (by nlinarith)]
    exact helev
theorem dir_roundtrip_witness :
    ((0 : ℝ) ^ 2 + (0 : ℝ) ^ 2 + (1 : ℝ) ^ 2 = 1) ∧
    (∃ phi theta : ℝ,
      decompress_u16x2_to_dir (compress_dir_to_u16x2 0 0 1).1
        (compress_dir_to_u16x2 0 0 1).2 =
        (Real.cos theta * Real.cos phi, Real.cos theta * Real.sin phi,
         Real.sin theta) ∧
      |phi - atan2 0 0| ≤ 2 * Real.pi / 65536 ∧
      |theta - Real.arcsin 1| ≤ Real.pi / 65536 ∧
      |Real.arcsin (Real.sin theta) - Real.arcsin 1| ≤ Real.pi / 65536) :=
  ⟨by norm_num, dir_roundtrip 0 0 1 (by norm_num)⟩

theorem build_bsp_structural_witness :
    ((⟨axisPlane 0 (-(median ([] : List ℚ))), -1, -1, 0, 0⟩ : BSPNode) ∈
      (build_bsp ([] : List Vec3) ([] : List Tri)).1) ∧
    nodeOk ⟨axisPlane 0 (-(median ([] : List ℚ))), -1, -1, 0, 0⟩
      (build_bsp ([] : List Vec3) ([] : List Tri)).1.length
      (build_bsp ([] : List Vec3) ([] : List Tri)).2.length := by
  have hb : (build_bsp ([] : List Vec3) ([] : List Tri)).1 =
      [⟨axisPlane 0 (-(median ([] : List ℚ))), -1, -1, 0, 0⟩] := by
    unfold build_bsp
    dsimp only
    rw [buildNode, if_pos (Or.inr (by decide))]
    rfl
  have hmem : (⟨axisPlane 0 (-(median ([] : List ℚ))), -1, -1, 0, 0⟩ : BSPNode) ∈
      (build_bsp ([] : List Vec3) ([] : List Tri)).1 := by
    rw [hb]
    exact List.mem_singleton.mpr rfl
  exact ⟨hmem, build_bsp_structural [] [] _ hmem⟩

end BigWorld
